import Mathlib

/-!
Verification of the construction-timeline analyser core
(`streamlit_app.py`): column inference, reconciliation (outer merge and
delay computation), insight aggregation / risk classification, and the
Gantt chart feed.  Tables are modelled as lists of column names and lists
of rows; spreadsheet cells are a tagged union; timestamps are integers
counting seconds since the Unix epoch (pandas uses nanoseconds, but the
day-floor semantics are resolution independent).
-/

namespace CTA

/-! ## String helpers (case folding, substring tests) -/

/-- Prefix test on character lists. -/
def startsWithL : List Char → List Char → Bool
  | [], _ => true
  | _ :: _, [] => false
  | a :: as, b :: bs => a == b && startsWithL as bs

/-- Substring test on character lists: `containsL needle hay` holds when
`needle` occurs contiguously inside `hay`. -/
def containsL (needle : List Char) : List Char → Bool
  | [] => startsWithL needle []
  | c :: cs => startsWithL needle (c :: cs) || containsL needle cs

/-- Lower-case a character list. -/
def lowerL (cs : List Char) : List Char := cs.map Char.toLower

/-- Lower-cased character list of a string, mirroring Python `s.lower()`. -/
def strLower (s : String) : List Char := lowerL s.toList

/-- `kw in col.lower()` of the source: case-insensitive substring test of a
keyword inside a column name. -/
def hasSubL (col : String) (kw : String) : Bool :=
  containsL (strLower kw) (strLower col)

/-- Python `a or b` on strings: the empty string is falsy. -/
def orS (a b : String) : String := if a = "" then b else a

/-! ## `find_column` (source lines 65-75)

The source builds `lower_cols = {c.lower(): c for c in df.columns}` —
a dict in column order whose key is the lower-cased name; a later column
with the same lower-cased name overwrites the stored original name but
keeps the key position — and returns the original name of the first entry
whose key contains every keyword, or the empty string. -/

/-- Python dict assignment `d[k] = v` on an association list: update in
place if the key is present, else append. -/
def updAssoc (l : List (List Char × String)) (k : List Char) (v : String) :
    List (List Char × String) :=
  match l with
  | [] => [(k, v)]
  | (k2, v2) :: t => if k2 == k then (k2, v) :: t else (k2, v2) :: updAssoc t k v

def lowerColsAux (acc : List (List Char × String)) : List String → List (List Char × String)
  | [] => acc
  | c :: cs => lowerColsAux (updAssoc acc (strLower c) c) cs

/-- The `lower_cols` dict of `find_column`, as an ordered association list. -/
def lowerCols (cols : List String) : List (List Char × String) :=
  lowerColsAux [] cols

/-- `find_column(df, target_keywords)`: first column whose lower-cased name
contains all keywords (case-insensitive); empty string when none. -/
def find_column (cols : List String) (kws : List String) : String :=
  match (lowerCols cols).find? (fun kv => kws.all fun k => containsL (strLower k) kv.1) with
  | some kv => kv.2
  | none => ""

/-! ## Column inference (source lines 78-169) -/

/-- The exact candidate list of `infer_columns` for the task column. -/
def taskCandidates : List String :=
  ["Task", "task", "TASK", "Activity", "activity", "Name", "name"]

/-- Task-column resolution of `infer_columns` (source lines 87-114).
Returns the resolved name (possibly empty) together with warnings, or an
error.  Note: after the substring branch the source variable `task_col`
always holds a string (possibly empty), never `None`, so the
common-column fallback guarded by `if task_col is None` and the
`ValueError` are unreachable; they are transcribed here all the same. -/
def inferTaskCol (p a : List String) : Except String (String × List String) :=
  let step1 := taskCandidates.find? fun c => p.contains c && a.contains c
  let step2 : Option String :=
    match step1 with
    | some c => some c
    | none =>
      let t := orS (find_column p ["task"]) (find_column a ["task"])
      let t :=
        if t != "" && !(p.contains t) then
          match p.find? (fun c => hasSubL c "task") with
          | some c => c
          | none => t
        else t
      some t
  match step2 with
  | some t => .ok (t, [])
  | none =>
    -- unreachable: `task_col is None` is false once the branch above ran
    match p.find? (fun c => a.contains c) with
    | some c => .ok (c, ["No explicit Task-like column found. Using common column " ++ c ++ " as Task."])
    | none => .error "Could not find a common Task column in the two uploaded files."

/-- The exact candidate list of `infer_columns` for the phase column. -/
def phaseCandidates : List String :=
  ["Phase", "phase", "Phase Name", "phase name", "Stage", "stage"]

/-- Phase-column resolution of `infer_columns` (source lines 116-134):
candidate present in either table, else substring search for phase/stage
in the planned table, else in the actual table. -/
def inferPhaseCol (p a : List String) : Option String :=
  match phaseCandidates.find? (fun c => p.contains c || a.contains c) with
  | some c => some c
  | none =>
    match p.find? (fun c => hasSubL c "phase" || hasSubL c "stage") with
    | some c => some c
    | none => a.find? (fun c => hasSubL c "phase" || hasSubL c "stage")

/-- The four date-column slots. -/
structure DateCols where
  sp : String
  ep : String
  sa : String
  ea : String
deriving Repr, DecidableEq

/-- Date-column resolution of `infer_columns` (source lines 136-159):
per slot, substring match on direction+side qualifier, falling back at
once to the bare direction token; when the two end slots are not both
resolved, a second pass with the qualifier `date` (again falling back to
the bare direction token) fills slots still empty. -/
def inferDateCols (p a : List String) : DateCols :=
  let sp := orS (find_column p ["start", "planned"]) (find_column p ["start"])
  let ep := orS (find_column p ["end", "planned"]) (find_column p ["end"])
  let sa := orS (find_column a ["start", "actual"]) (find_column a ["start"])
  let ea := orS (find_column a ["end", "actual"]) (find_column a ["end"])
  if !(ep != "" && ea != "") then
    let sp2 := orS (find_column p ["start", "date"]) (find_column p ["start"])
    let ep2 := orS (find_column p ["end", "date"]) (find_column p ["end"])
    let sa2 := orS (find_column a ["start", "date"]) (find_column a ["start"])
    let ea2 := orS (find_column a ["end", "date"]) (find_column a ["end"])
    ⟨orS sp sp2, orS ep ep2, orS sa sa2, orS ea ea2⟩
  else
    ⟨sp, ep, sa, ea⟩

/-- The mapping produced by `infer_columns`; unresolved date slots are the
empty string, as in the source. -/
structure ColumnMapping where
  task : String
  phase : Option String
  start_planned : String
  end_planned : String
  start_actual : String
  end_actual : String
deriving Repr, DecidableEq

/-- `infer_columns(planned, actual)` over the two column-name lists:
mapping plus warning messages. -/
def infer_columns (p a : List String) : Except String (ColumnMapping × List String) :=
  match inferTaskCol p a with
  | .error e => .error e
  | .ok (task, w1) =>
    let phase := inferPhaseCol p a
    let d := inferDateCols p a
    let w2 := if d.ep = "" then ["Could not auto-detect End Planned column in Planned file."] else []
    let w3 := if d.ea = "" then ["Could not auto-detect End Actual column in Actual file."] else []
    .ok (⟨task, phase, d.sp, d.ep, d.sa, d.ea⟩, w1 ++ w2 ++ w3)

/-! ## Dates and cells

`robust_date_parse` (source lines 56-62) hands every cell to
`pd.to_datetime(..., errors="coerce")`: a value that already is a
datetime passes through, anything unparseable becomes `NaT`.  A cell is
modelled as a tagged union; the pandas parser itself is modelled for
ISO `YYYY-MM-DD` text (the only shape the claims exercise) — such text
parses to midnight of that civil day, all other text coerces to `NaT`. -/

/-- Value of an all-digit character list, `none` otherwise. -/
def digitsVal : List Char → Option Nat
  | [] => none
  | cs => if cs.all Char.isDigit
          then some (cs.foldl (fun n c => 10 * n + (c.toNat - 48)) 0)
          else none

/-- Split a character list on the dash character. -/
def splitDashAux (cur : List Char) : List Char → List (List Char)
  | [] => [cur.reverse]
  | c :: cs => if c == '-' then cur.reverse :: splitDashAux [] cs else splitDashAux (c :: cur) cs

def splitDashL (cs : List Char) : List (List Char) := splitDashAux [] cs

def isLeap (y : Nat) : Bool := y % 4 == 0 && (y % 100 != 0 || y % 400 == 0)

def daysInMonth (y : Nat) (m : Nat) : Nat :=
  if m == 2 then (if isLeap y then 29 else 28)
  else if m == 4 || m == 6 || m == 9 || m == 11 then 30
  else 31

/-- Days from 1970-01-01 to the civil date y-m-d (proleptic Gregorian). -/
def daysFromCivil (y : Int) (m d : Nat) : Int :=
  let yAdj : Int := if m ≤ 2 then y - 1 else y
  let era : Int := Int.fdiv yAdj 400
  let yoe : Int := yAdj - era * 400
  let mp : Int := if m ≤ 2 then (m : Int) + 9 else (m : Int) - 3
  let doy : Int := Int.fdiv (153 * mp + 2) 5 + (d : Int) - 1
  let doe : Int := yoe * 365 + Int.fdiv yoe 4 - Int.fdiv yoe 100 + doy
  era * 146097 + doe - 719468

def secPerDay : Int := 86400

/-- Modelled pandas date parsing of text: ISO `YYYY-MM-DD` goes to the
timestamp (seconds) of that day at midnight, anything else to `none`. -/
def parseIsoDate (s : String) : Option Int :=
  match splitDashL s.toList with
  | [ys, ms, ds] =>
    match digitsVal ys, digitsVal ms, digitsVal ds with
    | some y, some m, some d =>
      if ys.length == 4 && ms.length == 2 && ds.length == 2 &&
         1 ≤ m && m ≤ 12 && 1 ≤ d && d ≤ daysInMonth y m
      then some (secPerDay * daysFromCivil (y : Int) m d)
      else none
    | _, _, _ => none
  | _ => none

/-- A spreadsheet cell: an already-datetime value (timestamp in seconds),
free text, or blank. -/
inductive Cell where
  | dt (ts : Int)
  | txt (s : String)
  | blank
deriving Repr, DecidableEq

/-- `robust_date_parse` per cell: datetimes pass through, text is parsed
tolerantly, blanks and unparseable text coerce to `none` (`NaT`). -/
def robust_date_parse : Cell → Option Int
  | .dt t => some t
  | .txt s => parseIsoDate s
  | .blank => none

/-! ## Delay computation (source lines 224-233)

`prepare_merged_df` parses the two end columns and sets
`Delay_Days = (_end_actual_dt - _end_planned_dt).dt.days`; a pandas
`Timedelta` has a `.days` field equal to the floor of the difference in whole days. -/

/-- A merged row as the delay computation sees it: the two end cells plus
the value of any delay-like source column (which line 229 never reads). -/
structure MRow where
  endPl : Cell
  endAc : Cell
  delaySrc : Option Int
deriving Repr, DecidableEq

/-- `Delay_Days` of one merged row: floor of (end actual − end planned)
in days, `none` when either end date is missing or unparseable. -/
def rowDelay (r : MRow) : Option Int :=
  match robust_date_parse r.endAc, robust_date_parse r.endPl with
  | some ea, some ep => some (Int.fdiv (ea - ep) secPerDay)
  | _, _ => none

/-! ## Outer merge (source line 175)

`pd.merge(planned, actual, left_on=task_col, right_on=task_col,
how="outer")`: per key, every left row pairs with every matching right
row; an unmatched row of either side is kept with the other side null.
`SRow` reduces a table row to its task cell (the raw join key) and one
end cell of its own table; this projection supports the join-key
analysis (claim C5).  The delay computation is not in general
side-pure — the end columns are resolved against the merged frame and
can come from either table — so the general model is the named-cell
`TRow` with `mergedCellAt`/`delayOfMergedRow` below; `sideEnd` and
`mergedDelay` describe the configuration in which each end column
resolves to its own side. -/

structure SRow where
  task : String
  endCell : Cell
deriving Repr, DecidableEq

/-- The outer merge of the two projected tables on the raw task value. -/
def outerMerge (ps as : List SRow) : List (Option SRow × Option SRow) :=
  ((ps.map fun pr =>
      let ms := as.filter fun ar => ar.task == pr.task
      if ms.isEmpty then [(some pr, none)] else ms.map fun ar => (some pr, some ar)).flatten)
  ++ ((as.filter fun ar => ps.all fun pr => !(pr.task == ar.task)).map fun ar => (none, some ar))

/-- Parsed own-side end date of one side of a merged row (missing side:
`NaT`); applies only when that end column resolved to its own table. -/
def sideEnd : Option SRow → Option Int
  | some r => robust_date_parse r.endCell
  | none => none

/-- `Delay_Days` of a merged row built by `outerMerge`, in the
side-pure configuration. -/
def mergedDelay (r : Option SRow × Option SRow) : Option Int :=
  match sideEnd r.2, sideEnd r.1 with
  | some ea, some ep => some (Int.fdiv (ea - ep) secPerDay)
  | _, _ => none

/-! ## Insights (source lines 334-393) -/

inductive Risk where
  | LOW
  | MEDIUM
  | HIGH
deriving Repr, DecidableEq

structure Insights where
  total_delay_days : Int
  avg_delay_days : Rat
  num_tasks : Nat
  num_behind : Nat
  num_ahead : Nat
  risk_level : Risk
deriving Repr, DecidableEq

/-- Risk classification of `generate_insights` (source lines 377-385) as
a function of the (average delay, total positive delay, task count)
triple it reads. -/
def riskOfTriple (avg : Rat) (total : Int) (tasks : Nat) : Risk :=
  if avg ≥ 10 ∨ total > (tasks : Int) * 5 then .HIGH
  else if avg ≥ 3 then .MEDIUM
  else .LOW

/-- Aggregation of `generate_insights` over the rows whose `Delay_Days`
is numeric: total of the strictly positive delays (`sum(min_count=1)`
with the `NaN → 0` fallback equals plain sum over the positives), mean
of all delays, behind/ahead counts, and the threshold-based risk. -/
def insightsOfNumeric (numeric : List Int) : Option Insights :=
  if numeric.isEmpty then none
  else
    let total : Int := ((numeric.filter fun d => decide (0 < d)).foldl (· + ·) 0)
    let avg : Rat := mkRat (numeric.foldl (· + ·) 0) numeric.length
    let behind := numeric.countP fun d => decide (0 < d)
    let ahead := numeric.countP fun d => decide (d < 0)
    some ⟨total, avg, numeric.length, behind, ahead,
      if avg ≥ 10 ∨ total > (numeric.length : Int) * 5 then .HIGH
      else if avg ≥ 3 then .MEDIUM
      else .LOW⟩

/-- `generate_insights` over the `Delay_Days` column of the merged table:
filters to the rows with a numeric delay (line 344) and aggregates; the
all-null case yields the "No valid delay data detected" summary,
modelled as `none`. -/
def generate_insights (delays : List (Option Int)) : Option Insights :=
  insightsOfNumeric (delays.filterMap id)

/-! ## Gantt feed (source lines 249-309)

`prepare_merged_df` never creates `_start_planned_dt`/`_start_actual_dt`
columns, so `create_gantt` always takes the fallback branch: a bar is
emitted for each side whose parsed end date is present, with the start
fabricated as end minus seven days. -/

/-- A merged row as `create_gantt` reads it. -/
structure GRow where
  task : String
  phase : Option String
  endPl : Option Int
  endAc : Option Int
deriving Repr, DecidableEq

/-- One record of the chart feed. -/
structure GanttRec where
  task : String
  phase : Option String
  typ : String
  start : Int
  finish : Int
deriving Repr, DecidableEq

/-- The records `create_gantt` appends for one merged row. -/
def ganttRowsOf (r : GRow) : List GanttRec :=
  (match r.endPl with
   | some e => [⟨r.task, r.phase, "Planned", e - 7 * secPerDay, e⟩]
   | none => [])
  ++ (match r.endAc with
      | some e => [⟨r.task, r.phase, "Actual", e - 7 * secPerDay, e⟩]
      | none => [])

/-- `create_gantt`: collect all records; an empty feed raises. -/
def create_gantt (rows : List GRow) : Except String (List GanttRec) :=
  let recs := (rows.map ganttRowsOf).flatten
  if recs.isEmpty then .error "No timeline rows found to build Gantt chart." else .ok recs

/-! ## End-column resolution of `prepare_merged_df` (source lines 172-222) -/

/-- Column names of the merged frame: pandas suffixes overlapping
non-key columns with `_PL` / `_AC` and keeps one copy of the key. -/
def mergedCols (p a : List String) (key : String) : List String :=
  (p.map fun c => if c != key && a.contains c then c ++ "_PL" else c)
  ++ ((a.filter fun c => c != key).map fun c => if p.contains c then c ++ "_AC" else c)

/-- Source line 178: merged columns containing `end` and `pl`/`planned`. -/
def endPlCandidates (merged : List String) : List String :=
  merged.filter fun c => hasSubL c "end" && (hasSubL c "pl" || hasSubL c "planned")

/-- Source line 179: merged columns containing `end` and `ac`/`actual`. -/
def endAcCandidates (merged : List String) : List String :=
  merged.filter fun c => hasSubL c "end" && (hasSubL c "ac" || hasSubL c "actual")

def headS : List String → String
  | [] => ""
  | c :: _ => c

/-- Suffix fix-up of `prepare_merged_df` (source lines 186-192): a
resolved name absent from the merged frame is retried with the merge
suffix appended. -/
def endStage2 (merged : List String) (sfx : String) (e1 : String) : String :=
  if e1 != "" && !(merged.contains e1) then
    (if merged.contains (e1 ++ sfx) then e1 ++ sfx else e1)
  else e1

/-- Last-resort search over the merged columns (source lines 194-204). -/
def endStage3 (merged : List String) (pred : String → Bool) (e2 : String) : String :=
  if e2 = "" then
    (match merged.find? pred with
     | some c => c
     | none => "")
  else e2

/-- Sensible-default search over one source table (source lines 206-217):
any of its columns containing `end`. -/
def endStage4 (tbl : List String) (e3 : String) : String :=
  if e3 = "" then
    (match tbl.find? (fun c => hasSubL c "end") with
     | some c => c
     | none => "")
  else e3

/-- The planned-end column name after every fallback of
`prepare_merged_df` (mapping value, merged candidates, `_PL` suffix
fix-up, merged `end`+`_pl` search, any planned column containing `end`);
empty when all fail. -/
def endPlFinal (p a : List String) (m : ColumnMapping) : String :=
  let merged := mergedCols p a m.task
  endStage4 p (endStage3 merged (fun c => hasSubL c "end" && hasSubL c "_pl")
    (endStage2 merged "_PL" (orS m.end_planned (headS (endPlCandidates merged)))))

/-- The actual-end column name after every fallback of
`prepare_merged_df`; empty when all fail. -/
def endAcFinal (p a : List String) (m : ColumnMapping) : String :=
  let merged := mergedCols p a m.task
  endStage4 a (endStage3 merged
    (fun c => hasSubL c "end" && (hasSubL c "_ac" || hasSubL c "_actual"))
    (endStage2 merged "_AC" (orS m.end_actual (headS (endAcCandidates merged)))))

/-- The failure behaviour of `prepare_merged_df`: `pd.merge` raises
`KeyError` when the join key is absent from either frame; the source
raises `ValueError` when an end column stays unresolved; reading a
resolved but nonexistent column name at line 225 would also raise
`KeyError`.  Success returns the two resolved end-column names. -/
def resolveEnds (p a : List String) (m : ColumnMapping) : Except String (String × String) :=
  if !(p.contains m.task && a.contains m.task) then
    .error "KeyError: merge key not found"
  else
    let epl := endPlFinal p a m
    let eac := endAcFinal p a m
    if epl == "" || eac == "" then
      .error "Unable to identify End Planned and End Actual columns automatically."
    else
      let merged := mergedCols p a m.task
      if !(merged.contains epl && merged.contains eac) then
        .error "KeyError: end column not found"
      else
        .ok (epl, eac)

def isOkE {ε α : Type} : Except ε α → Bool
  | .ok _ => true
  | .error _ => false

/-! ## The merged frame in full (source lines 172-233)

A table row with its named cells: the task cell (the raw join key) plus
every other column.  The end columns read at line 225 are the names
`resolveEnds` produces, and those names can originate from either
table — the candidate search of lines 178-183 runs over the merged
frame — so reading a merged row must locate the origin of a merged
column name through the pandas suffixing before picking a side. -/

structure TRow where
  task : String
  cells : List (String × Cell)
deriving Repr, DecidableEq

/-- The cell of a row at a named column; `none` models NaN/absent. -/
def cellAt (r : TRow) (c : String) : Option Cell :=
  match r.cells.find? (fun kv => kv.1 == c) with
  | some kv => some kv.2
  | none => none

/-- The outer merge of the two full tables on the raw task value
(same join as `outerMerge`, over rows that keep all their cells). -/
def outerMergeT (ps as : List TRow) : List (Option TRow × Option TRow) :=
  ((ps.map fun pr =>
      let ms := as.filter fun ar => ar.task == pr.task
      if ms.isEmpty then [(some pr, none)] else ms.map fun ar => (some pr, some ar)).flatten)
  ++ ((as.filter fun ar => ps.all fun pr => !(pr.task == ar.task)).map fun ar => (none, some ar))

/-- Task identity of a merged row. -/
def mKeyT : Option TRow × Option TRow → String
  | (some pr, _) => pr.task
  | (none, some ar) => ar.task
  | (none, none) => ""

/-- Number of merged rows carrying a given task identity. -/
def countKeyT (l : List (Option TRow × Option TRow)) (k : String) : Nat :=
  l.countP fun r => mKeyT r == k

/-- The planned-table column (if any) whose merged-frame name (after
`_PL` suffixing of overlapping non-key columns) is `mc`. -/
def plFinder (p a : List String) (key mc : String) : Option String :=
  p.find? fun c0 => (if c0 != key && a.contains c0 then c0 ++ "_PL" else c0) == mc

/-- The actual-table column (if any) whose merged-frame name (after
`_AC` suffixing) is `mc`. -/
def acFinder (p a : List String) (key mc : String) : Option String :=
  a.find? fun c0 => !(c0 == key) && ((if p.contains c0 then c0 ++ "_AC" else c0) == mc)

/-- Whether the merged column `mc` originates from the planned table. -/
def plannedOrigin (p a : List String) (key mc : String) : Bool :=
  (plFinder p a key mc).isSome

/-- Reading `merged[mc]` for one merged row: the join key is present
whenever either side is; any other merged column name is traced back
through the suffixing to its source table, and its value is that side
row cell (NaN when that side of the outer join is absent). -/
def mergedCellAt (p a : List String) (key : String) (row : Option TRow × Option TRow)
    (mc : String) : Option Cell :=
  if mc == key then
    match row.1 with
    | some r => some (Cell.txt r.task)
    | none =>
      match row.2 with
      | some r => some (Cell.txt r.task)
      | none => none
  else
    match plFinder p a key mc with
    | some c0 =>
      match row.1 with
      | some r => cellAt r c0
      | none => none
    | none =>
      match acFinder p a key mc with
      | some c0 =>
        match row.2 with
        | some r => cellAt r c0
        | none => none
      | none => none

/-- `robust_date_parse(merged[mc])` for one merged row. -/
def parseAt (p a : List String) (key : String) (row : Option TRow × Option TRow)
    (mc : String) : Option Int :=
  match mergedCellAt p a key row mc with
  | some cell => robust_date_parse cell
  | none => none

/-- `Delay_Days` of one merged row computed exactly as lines 220-229:
resolve the two end-column names (raising when that fails), parse the
cells those names denote in this row, and take the floor-day
difference. -/
def delayOfMergedRow (p a : List String) (m : ColumnMapping)
    (row : Option TRow × Option TRow) : Option Int :=
  match resolveEnds p a m with
  | .error _ => none
  | .ok (epl, eac) =>
    match parseAt p a m.task row eac, parseAt p a m.task row epl with
    | some ea, some ep => some (Int.fdiv (ea - ep) secPerDay)
    | _, _ => none

/-- The planned-table row of the C3 counterexample (no end-named
column in its table). -/
def c3PlannedRow : TRow := ⟨"a", [("Finish", Cell.txt "2024-01-01")]⟩

/-- The actual-table row of the C3 counterexample: its task is absent
from the planned table, yet its table carries an End Planned column. -/
def c3ActualRow : TRow :=
  ⟨"b", [("End Planned", Cell.txt "2024-01-10"), ("End Actual", Cell.txt "2024-01-15")]⟩

/-! ## Definitions following the wording of the specification

These are deliberately written from the words of the specification (not
from the source) and are compared against the source-derived definitions
above. -/

/-- Fuel-based Levenshtein distance on character lists (fuel at least
the sum of lengths is exact). -/
def levAux : Nat → List Char → List Char → Nat
  | 0, xs, ys => xs.length + ys.length
  | _ + 1, [], ys => ys.length
  | _ + 1, x :: xs, [] => (x :: xs).length
  | f + 1, x :: xs, y :: ys =>
    if x == y then levAux f xs ys
    else 1 + min (levAux f xs ys) (min (levAux f (x :: xs) ys) (levAux f xs (y :: ys)))

def levDist (xs ys : List Char) : Nat := levAux (xs.length + ys.length) xs ys

/-- Modelled from the spec: the fuzzy-match similarity floor of claim C4
— similarity `1 - lev/max(len)` of at least `0.6`, i.e.
`5*lev ≤ 2*max(len)` — under normalized edit distance, the metric the
spec offers.  No such matching exists in the source. -/
def fuzzyFloorOK (s t : String) : Bool :=
  5 * levDist s.toList t.toList ≤ 2 * max s.toList.length t.toList.length

/-- Modelled from the spec: whitespace normalization of the join key
claimed by C5 (trim surrounding whitespace, collapse internal runs,
preserve case).  The source never normalizes the join key. -/
def normalizeWs (s : String) : String :=
  let words := (s.toList.splitOnP Char.isWhitespace).filter (fun w => !w.isEmpty)
  String.mk ((words.intersperse [' ']).flatten)

/-- Modelled from the spec: the date-slot procedure claimed by C6 — first
a column containing the direction token and a qualifier (the side token,
or generically `date`), only then a bare direction match. -/
def specDateSlot (cols : List String) (dir side : String) : String :=
  match (lowerCols cols).find? (fun kv =>
      containsL (strLower dir) kv.1 &&
      (containsL (strLower side) kv.1 || containsL (strLower "date") kv.1)) with
  | some kv => kv.2
  | none => find_column cols [dir]

example : parseIsoDate "2024-01-10" = some (19732 * 86400) := by decide
example : parseIsoDate "2024-02-29" = some (19782 * 86400) := by decide
example : parseIsoDate "2023-02-29" = none := by decide
example : parseIsoDate "garbage" = none := by decide
example : rowDelay ⟨.txt "2024-01-10", .txt "2024-01-15", none⟩ = some 5 := by decide
example : rowDelay ⟨.txt "2024-01-15", .txt "2024-01-10", none⟩ = some (-5) := by decide
example : rowDelay ⟨.dt 10, .dt 5, some 42⟩ = some (-1) := by decide
example : generate_insights [some 5, some (-3), some 0, some 2] =
    some ⟨7, 1, 4, 2, 1, Risk.LOW⟩ := by decide
example : normalizeWs "  a   b " = "a b" := by decide
example : fuzzyFloorOK "task" "tasj" = true := by decide
example : fuzzyFloorOK "task" "tasjk" = true := by decide
example : resolveEnds ["Task", "End"] ["Task"] ⟨"Task", none, "", "End", "", ""⟩ =
    .error "Unable to identify End Planned and End Actual columns automatically." := by rfl
example : infer_columns ["Task", "End"] ["Task"] =
    .ok (⟨"Task", none, "", "End", "", ""⟩,
         ["Could not auto-detect End Actual column in Actual file."]) := by rfl

example : find_column ["Kickstart time", "Start Date"] ["start"] = "Kickstart time" := by decide
example : find_column ["Kickstart time", "Start Date"] ["start", "date"] = "Start Date" := by decide
example : inferTaskCol ["tasj"] ["tasjk"] = .ok ("", []) := by rfl
example : inferTaskCol ["Foo"] ["My Task"] = .ok ("My Task", []) := by rfl
example : inferTaskCol ["Task"] ["Task"] = .ok ("Task", []) := by rfl

/-! ## Helper lemmas -/

theorem countP_sign_partition (l : List Int) :
    ((l.countP fun d => decide (0 < d)) + (l.countP fun d => decide (d < 0))) +
      (l.countP fun d => decide (d = 0)) = l.length := by
  induction l with
  | nil => rfl
  | cons x t ih =>
    simp only [List.countP_cons, List.length_cons]
    by_cases h1 : 0 < x
    · have h2 : ¬(x < 0) := by omega
      have h3 : ¬(x = 0) := by omega
      simp [h1, h2, h3]
      omega
    · by_cases h3 : x = 0
      · have h2 : ¬(x < 0) := by omega
        simp [h1, h2, h3]
        omega
      · have h2 : x < 0 := by omega
        simp [h1, h2, h3]
        omega

theorem gantt_start_of_mem (r : GRow) :
    ∀ g ∈ ganttRowsOf r, g.start = g.finish - 7 * secPerDay := by
  intro g hg
  simp only [ganttRowsOf] at hg
  rcases List.mem_append.mp hg with h | h
  · cases hp : r.endPl with
    | none => simp [hp] at h
    | some e =>
      simp [hp] at h
      subst h
      rfl
  · cases ha : r.endAc with
    | none => simp [ha] at h
    | some e =>
      simp [ha] at h
      subst h
      rfl

theorem containsL_nil {n : List Char} (h : containsL n [] = true) : n = [] := by
  cases n with
  | nil => rfl
  | cons a as => simp [containsL, startsWithL] at h

theorem mem_updAssoc {l : List (List Char × String)} {k : List Char} {v : String}
    {kv : List Char × String} (h : kv ∈ updAssoc l k v) : kv ∈ l ∨ kv = (k, v) := by
  induction l with
  | nil =>
    simp [updAssoc] at h
    exact Or.inr h
  | cons hd t ih =>
    obtain ⟨k2, v2⟩ := hd
    by_cases hk : k2 == k
    · simp only [updAssoc, if_pos hk] at h
      rcases List.mem_cons.mp h with h | h
      · right
        rw [h]
        have hk2 : k2 = k := by simpa using hk
        rw [hk2]
      · exact Or.inl (List.mem_cons_of_mem _ h)
    · simp only [updAssoc, if_neg hk] at h
      rcases List.mem_cons.mp h with h | h
      · rw [h]
        exact Or.inl (List.mem_cons_self _ _)
      · rcases ih h with h2 | h2
        · exact Or.inl (List.mem_cons_of_mem _ h2)
        · exact Or.inr h2

theorem updAssoc_exists_key (l : List (List Char × String)) (k : List Char) (v : String) :
    ∃ kv ∈ updAssoc l k v, kv.1 = k := by
  induction l with
  | nil => exact ⟨(k, v), by simp [updAssoc], rfl⟩
  | cons hd t ih =>
    obtain ⟨k2, v2⟩ := hd
    by_cases hk : k2 == k
    · exact ⟨(k2, v), by simp [updAssoc, hk], by simpa using hk⟩
    · obtain ⟨kv, hm, hf⟩ := ih
      exact ⟨kv, by simp [updAssoc, hk, hm], hf⟩

theorem updAssoc_keeps_key {l : List (List Char × String)} {kv : List Char × String}
    (h : kv ∈ l) (k : List Char) (v : String) :
    ∃ kv2 ∈ updAssoc l k v, kv2.1 = kv.1 := by
  induction l with
  | nil => cases h
  | cons hd t ih =>
    obtain ⟨k2, v2⟩ := hd
    by_cases hk : k2 == k
    · rcases List.mem_cons.mp h with h | h
      · exact ⟨(k2, v), by simp [updAssoc, hk], by rw [h]⟩
      · exact ⟨kv, by simp [updAssoc, hk, h], rfl⟩
    · rcases List.mem_cons.mp h with h | h
      · exact ⟨(k2, v2), by simp [updAssoc, hk], by rw [h]⟩
      · obtain ⟨kv2, hm, hf⟩ := ih h
        exact ⟨kv2, by simp [updAssoc, hk, hm], hf⟩

theorem lowerColsAux_mem {cs : List String} :
    ∀ {acc : List (List Char × String)} {kv : List Char × String},
      kv ∈ lowerColsAux acc cs → kv ∈ acc ∨ (kv.1 = strLower kv.2 ∧ kv.2 ∈ cs) := by
  induction cs with
  | nil =>
    intro acc kv h
    exact Or.inl h
  | cons c t ih =>
    intro acc kv h
    rcases ih h with h2 | h2
    · rcases mem_updAssoc h2 with h3 | h3
      · exact Or.inl h3
      · right
        rw [h3]
        exact ⟨rfl, List.mem_cons_self _ _⟩
    · exact Or.inr ⟨h2.1, List.mem_cons_of_mem _ h2.2⟩

theorem lowerColsAux_keeps {cs : List String} :
    ∀ {acc : List (List Char × String)} {kv : List Char × String}, kv ∈ acc →
      ∃ kv2 ∈ lowerColsAux acc cs, kv2.1 = kv.1 := by
  induction cs with
  | nil =>
    intro acc kv h
    exact ⟨kv, h, rfl⟩
  | cons c t ih =>
    intro acc kv h
    obtain ⟨kv2, hm, hf⟩ := updAssoc_keeps_key h (strLower c) c
    obtain ⟨kv3, hm3, hf3⟩ := ih hm
    exact ⟨kv3, hm3, hf3.trans hf⟩

theorem lowerColsAux_covers {cs : List String} :
    ∀ (acc : List (List Char × String)) {c : String}, c ∈ cs →
      ∃ kv ∈ lowerColsAux acc cs, kv.1 = strLower c := by
  induction cs with
  | nil =>
    intro acc c h
    cases h
  | cons c0 t ih =>
    intro acc c h
    rcases List.mem_cons.mp h with h | h
    · obtain ⟨kv, hm, hf⟩ := updAssoc_exists_key acc (strLower c0) c0
      obtain ⟨kv2, hm2, hf2⟩ := lowerColsAux_keeps hm
      exact ⟨kv2, hm2, by rw [hf2, hf, h]⟩
    · exact ih _ h

theorem lowerCols_entry {cols : List String} {kv : List Char × String}
    (h : kv ∈ lowerCols cols) : kv.1 = strLower kv.2 ∧ kv.2 ∈ cols := by
  rcases lowerColsAux_mem h with h2 | h2
  · cases h2
  · exact h2

theorem find_column_cases (cols kws : List String) :
    find_column cols kws = "" ∨ find_column cols kws ∈ cols := by
  unfold find_column
  cases hf : (lowerCols cols).find? (fun kv => kws.all fun k => containsL (strLower k) kv.1) with
  | none => exact Or.inl rfl
  | some kv => exact Or.inr (lowerCols_entry (List.mem_of_find?_eq_some hf)).2

theorem find_none_of_empty {cols kws : List String}
    (hne : ∃ k ∈ kws, strLower k ≠ []) (h : find_column cols kws = "") :
    (lowerCols cols).find? (fun kv => kws.all fun k => containsL (strLower k) kv.1) = none := by
  cases hf : (lowerCols cols).find? (fun kv => kws.all fun k => containsL (strLower k) kv.1) with
  | none => rfl
  | some kv =>
    exfalso
    have h2 : find_column cols kws = kv.2 := by
      unfold find_column
      rw [hf]
    obtain ⟨k, hk, hkne⟩ := hne
    have hp := List.find?_some hf
    rw [List.all_eq_true] at hp
    have hpk := hp k hk
    have hk1 : kv.1 = strLower kv.2 := (lowerCols_entry (List.mem_of_find?_eq_some hf)).1
    rw [h2] at h
    rw [h] at hk1
    have h0 : strLower "" = [] := rfl
    rw [h0] at hk1
    rw [hk1] at hpk
    exact hkne (containsL_nil hpk)

theorem find_column_empty_all {cols : List String} {kw : String}
    (hkw : strLower kw ≠ []) (h : find_column cols [kw] = "") :
    ∀ c ∈ cols, containsL (strLower kw) (strLower c) = false := by
  intro c hc
  have hnone := find_none_of_empty ⟨kw, by simp, hkw⟩ h
  rw [List.find?_eq_none] at hnone
  obtain ⟨kv, hm, hf⟩ := lowerColsAux_covers [] hc
  have h1 := hnone kv hm
  simp only [List.all_cons, List.all_nil, Bool.and_true] at h1
  rw [hf] at h1
  simpa using h1

theorem find_column_sub_empty {cols : List String} {d q : String}
    (hd : strLower d ≠ []) (h : find_column cols [d] = "") :
    find_column cols [d, q] = "" := by
  have hall := find_column_empty_all hd h
  unfold find_column
  have hn : (lowerCols cols).find?
      (fun kv => [d, q].all fun k => containsL (strLower k) kv.1) = none := by
    rw [List.find?_eq_none]
    intro kv hkv
    obtain ⟨hk1, hk2⟩ := lowerCols_entry hkv
    have h2 := hall kv.2 hk2
    rw [hk1]
    simp [h2]
  rw [hn]

theorem orS_collapse {A B C : String} (h : B = "" → C = "") :
    orS (orS A B) (orS C B) = orS A B := by
  by_cases h1 : A = ""
  · by_cases h2 : B = ""
    · simp [orS, h1, h2, h h2]
    · simp [orS, h1, h2]
  · simp [orS, h1]

/-! ## Claim theorems -/

/-- Claim C1: for every reconciled row, `delay_days` is non-null iff both
end dates parsed; when non-null it is the floor of the calendar-day
difference end actual minus end planned (2024-01-10 to 2024-01-15 gives
5, reversed gives -5, and a negative sub-day difference floors to -1
rather than truncating to 0); it is computed from the two end cells
alone, never copied from a delay-like source column. -/
theorem c1_delay_days :
    (∀ r : MRow,
      ((rowDelay r).isSome ↔
        ((robust_date_parse r.endPl).isSome ∧ (robust_date_parse r.endAc).isSome)) ∧
      (∀ ep ea : Int, robust_date_parse r.endPl = some ep →
        robust_date_parse r.endAc = some ea →
        rowDelay r = some (Int.fdiv (ea - ep) secPerDay)) ∧
      (∀ d : Option Int, rowDelay ⟨r.endPl, r.endAc, d⟩ = rowDelay r)) ∧
    rowDelay ⟨Cell.txt "2024-01-10", Cell.txt "2024-01-15", none⟩ = some 5 ∧
    rowDelay ⟨Cell.txt "2024-01-15", Cell.txt "2024-01-10", none⟩ = some (-5) ∧
    rowDelay ⟨Cell.dt 10, Cell.dt 5, some 42⟩ = some (-1) := by
  refine ⟨fun r => ⟨?_, ?_, ?_⟩, by decide, by decide, by decide⟩
  · cases h1 : robust_date_parse r.endPl <;> cases h2 : robust_date_parse r.endAc <;>
      simp [rowDelay, h1, h2]
  · intro ep ea h1 h2
    simp [rowDelay, h1, h2]
  · intro d
    rfl

/-- Witness for C1: the floor formula applied at the spec scenario dates
2024-02-01 and 2024-02-06 (day numbers 19754 and 19759). -/
theorem c1_delay_days_witness :
    rowDelay ⟨Cell.txt "2024-02-01", Cell.txt "2024-02-06", none⟩ =
      some (Int.fdiv (86400 * 19759 - 86400 * 19754) secPerDay) :=
  (c1_delay_days.1 ⟨Cell.txt "2024-02-01", Cell.txt "2024-02-06", none⟩).2.1
    (86400 * 19754) (86400 * 19759) (by decide) (by decide)

/-- Claim C2: the risk level of every summary with at least one numeric
delay is a pure function of the triple (average delay, total positive
delay, task count), with the fixed thresholds evaluated in order (first
match wins): HIGH when average at least 10 or total positive delay
exceeds five per task, else MEDIUM when average at least 3, else LOW;
average 11 is HIGH regardless of the other fields, average 4 is MEDIUM
whenever the HIGH clause does not fire, and (average 1, total 2, tasks 1)
is LOW. -/
theorem c2_risk_classification :
    (∀ (ds : List (Option Int)) (i : Insights), generate_insights ds = some i →
      i.risk_level = riskOfTriple i.avg_delay_days i.total_delay_days i.num_tasks) ∧
    (∀ (avg : Rat) (t : Int) (n : Nat),
      (riskOfTriple avg t n = .HIGH ↔ (avg ≥ 10 ∨ t > (n : Int) * 5)) ∧
      (riskOfTriple avg t n = .MEDIUM ↔ (¬(avg ≥ 10 ∨ t > (n : Int) * 5) ∧ avg ≥ 3)) ∧
      (riskOfTriple avg t n = .LOW ↔ (¬(avg ≥ 10 ∨ t > (n : Int) * 5) ∧ ¬(avg ≥ 3)))) ∧
    (∀ (t : Int) (n : Nat), riskOfTriple 11 t n = .HIGH) ∧
    (∀ (t : Int) (n : Nat), t ≤ (n : Int) * 5 → riskOfTriple 4 t n = .MEDIUM) ∧
    riskOfTriple 1 2 1 = .LOW := by
  refine ⟨?_, ?_, ?_, ?_, ?_⟩
  · intro ds i h
    simp only [generate_insights, insightsOfNumeric] at h
    split at h
    · exact absurd h (by simp)
    · rw [Option.some_inj] at h
      subst h
      rfl
  · intro avg t n
    by_cases h1 : (avg ≥ 10 ∨ t > (n : Int) * 5) <;> by_cases h2 : avg ≥ 3 <;>
      simp [riskOfTriple, h1, h2]
  · intro t n
    have h1 : (11 : Rat) ≥ 10 ∨ t > (n : Int) * 5 := Or.inl (by norm_num)
    simp [riskOfTriple, h1]
  · intro t n h
    have h1 : ¬((4 : Rat) ≥ 10 ∨ t > (n : Int) * 5) := by
      push_neg
      exact ⟨by norm_num, h⟩
    have h2 : (4 : Rat) ≥ 3 := by norm_num
    simp [riskOfTriple, h1, h2]
  · have h1 : ¬((1 : Rat) ≥ 10 ∨ (2 : Int) > ((1 : Nat) : Int) * 5) := by
      push_neg
      exact ⟨by norm_num, by norm_num⟩
    have h2 : ¬((1 : Rat) ≥ 3) := by norm_num
    simp [riskOfTriple, h1, h2]

/-- Witness for C2: the purity equation at a one-row table with delay 5,
and the MEDIUM example with its HIGH clause hypothesis discharged. -/
theorem c2_risk_classification_witness :
    (⟨5, 5, 1, 1, 0, Risk.MEDIUM⟩ : Insights).risk_level = riskOfTriple 5 5 1 ∧
    riskOfTriple 4 2 1 = .MEDIUM :=
  ⟨c2_risk_classification.1 [some 5] ⟨5, 5, 1, 1, 0, Risk.MEDIUM⟩ (by decide),
   c2_risk_classification.2.2.2.1 2 1 (by norm_num)⟩

/-- Claim C7: over any sequence of reconciled rows, the summary sums only
the strictly positive delays into the total, averages all numeric delays
(positive, negative and zero), counts behind/ahead rows as those with
strictly positive/negative delay (zero counting as neither), and on the
delays [5, -3, 0, 2] yields total 7 and average 1. -/
theorem c7_aggregates :
    (∀ (ds : List (Option Int)) (i : Insights), generate_insights ds = some i →
      i.total_delay_days = ((ds.filterMap id).filter fun d => decide (0 < d)).sum ∧
      i.avg_delay_days =
        (((ds.filterMap id).sum : Int) : Rat) / (((ds.filterMap id).length : Nat) : Rat) ∧
      i.num_tasks = (ds.filterMap id).length ∧
      i.num_behind = ((ds.filterMap id).countP fun d => decide (0 < d)) ∧
      i.num_ahead = ((ds.filterMap id).countP fun d => decide (d < 0)) ∧
      (i.num_behind + i.num_ahead) + ((ds.filterMap id).countP fun d => decide (d = 0)) =
        i.num_tasks) ∧
    generate_insights [some 5, some (-3), some 0, some 2] =
      some ⟨7, 1, 4, 2, 1, Risk.LOW⟩ := by
  constructor
  · intro ds i h
    simp only [generate_insights, insightsOfNumeric] at h
    split at h
    · exact absurd h (by simp)
    · rw [Option.some_inj] at h
      subst h
      refine ⟨List.sum_eq_foldl.symm, ?_, rfl, rfl, rfl, countP_sign_partition _⟩
      show mkRat _ _ = _
      rw [List.sum_eq_foldl, Rat.mkRat_eq_divInt, Rat.divInt_eq_div]
      norm_cast
  · decide

/-- Witness for C7: the aggregate equations instantiated at the spec test
vector [5, -3, 0, 2]. -/
theorem c7_aggregates_witness :
    (⟨7, 1, 4, 2, 1, Risk.LOW⟩ : Insights).total_delay_days =
      (([some 5, some (-3), some 0, some 2].filterMap id).filter fun d => decide (0 < d)).sum :=
  (c7_aggregates.1 [some 5, some (-3), some 0, some 2] ⟨7, 1, 4, 2, 1, Risk.LOW⟩ (by decide)).1

/-- Claim C10: in the chart feed (where no parsed start columns ever
exist in the merged table), a Planned (resp. Actual) record is emitted
for a row iff the end date of that side parsed, and every emitted
record carries a fabricated Start equal to its Finish minus exactly 7
days, the Finish being the end date of that side. -/
theorem c10_gantt :
    (∀ r : GRow,
      ((∃ g ∈ ganttRowsOf r, g.typ = "Planned") ↔ (r.endPl).isSome) ∧
      ((∃ g ∈ ganttRowsOf r, g.typ = "Actual") ↔ (r.endAc).isSome) ∧
      (∀ g ∈ ganttRowsOf r, g.start = g.finish - 7 * secPerDay) ∧
      (∀ g ∈ ganttRowsOf r, g.typ = "Planned" → r.endPl = some g.finish) ∧
      (∀ g ∈ ganttRowsOf r, g.typ = "Actual" → r.endAc = some g.finish)) ∧
    (∀ (rows : List GRow) (recs : List GanttRec), create_gantt rows = .ok recs →
      ∀ g ∈ recs, g.start = g.finish - 7 * secPerDay) := by
  constructor
  · intro r
    refine ⟨?_, ?_, gantt_start_of_mem r, ?_, ?_⟩ <;>
      cases hp : r.endPl <;> cases ha : r.endAc <;> simp [ganttRowsOf, hp, ha]
  · intro rows recs h g hg
    simp only [create_gantt] at h
    split at h
    · exact absurd h (by simp)
    · rw [Except.ok.injEq] at h
      subst h
      rw [List.mem_flatten] at hg
      obtain ⟨l, hl, hgl⟩ := hg
      rw [List.mem_map] at hl
      obtain ⟨r, _, rfl⟩ := hl
      exact gantt_start_of_mem r g hgl

/-- Witness for C10: a row with only a planned end date emits a Planned
record, and an ok feed at a concrete input obeys the 7-day rule. -/
theorem c10_gantt_witness :
    ((⟨"t", none, some 864000, none⟩ : GRow).endPl).isSome ∧
    (⟨"t", none, "Planned", 864000 - 7 * secPerDay, 864000⟩ : GanttRec).start =
      864000 - 7 * secPerDay :=
  ⟨(c10_gantt.1 ⟨"t", none, some 864000, none⟩).1.mp (by decide),
   c10_gantt.2 [⟨"t", none, some 864000, none⟩]
     [⟨"t", none, "Planned", 864000 - 7 * secPerDay, 864000⟩] (by rfl)
     ⟨"t", none, "Planned", 864000 - 7 * secPerDay, 864000⟩ (by decide)⟩

/-- Counterexample to claim C5: the task cells " A" and "A" differ only
in surrounding whitespace — the spec-worded normalization identifies
them — yet the merge keeps them apart: the output is two one-sided rows
(each with the other side null) and no row carries a delay. -/
theorem c5_counterexample :
    outerMerge [⟨" A", Cell.dt 0⟩] [⟨"A", Cell.dt 86400⟩] =
      [(some ⟨" A", Cell.dt 0⟩, none), (none, some ⟨"A", Cell.dt 86400⟩)] ∧
    normalizeWs " A" = normalizeWs "A" ∧
    ((outerMerge [⟨" A", Cell.dt 0⟩] [⟨"A", Cell.dt 86400⟩]).all
      fun r => (mergedDelay r).isNone) = true :=
  ⟨by decide, by decide, by decide⟩

/-- Claim C5 as amended: the reconciler performs no whitespace
normalization; the outer join pairs a planned row with an actual row
exactly when their raw task cells are equal as strings, so cells
differing only in whitespace do not join. -/
theorem c5_raw_join :
    ∀ (ps as : List SRow) (pr ar : SRow),
      ((some pr, some ar) ∈ outerMerge ps as) ↔ (pr ∈ ps ∧ ar ∈ as ∧ pr.task = ar.task) := by
  intro ps as pr ar
  constructor
  · intro h
    rcases List.mem_append.mp h with h | h
    · rw [List.mem_flatten] at h
      obtain ⟨l, hl, hml⟩ := h
      rw [List.mem_map] at hl
      obtain ⟨pr0, hpr0, rfl⟩ := hl
      by_cases hms : (as.filter fun x => x.task == pr0.task).isEmpty
      · rw [if_pos hms] at hml
        simp at hml
      · rw [if_neg hms] at hml
        rw [List.mem_map] at hml
        obtain ⟨ar0, har0, heq⟩ := hml
        obtain ⟨h1, h2⟩ := Prod.mk.injEq _ _ _ _ ▸ heq
        rw [Option.some_inj] at h1 h2
        subst h1
        subst h2
        rw [List.mem_filter] at har0
        refine ⟨hpr0, har0.1, ?_⟩
        have := har0.2
        simp only [beq_iff_eq] at this
        exact this.symm
    · rw [List.mem_map] at h
      obtain ⟨ar0, _, heq⟩ := h
      simp at heq
  · rintro ⟨hp, ha, ht⟩
    apply List.mem_append_left
    rw [List.mem_flatten]
    refine ⟨_, List.mem_map_of_mem _ hp, ?_⟩
    have hmem : ar ∈ as.filter fun x => x.task == pr.task := by
      rw [List.mem_filter]
      exact ⟨ha, by simp [ht.symm]⟩
    have hne : ¬(as.filter fun x => x.task == pr.task).isEmpty = true := by
      intro hcon
      rw [List.isEmpty_iff] at hcon
      rw [hcon] at hmem
      cases hmem
    rw [if_neg hne]
    exact List.mem_map_of_mem _ hmem

/-- Witness for the amended C5: two rows with identical raw task cells
do join. -/
theorem c5_raw_join_witness :
    (some (⟨"B", Cell.blank⟩ : SRow), some (⟨"B", Cell.dt 3⟩ : SRow)) ∈
      outerMerge [⟨"B", Cell.blank⟩] [⟨"B", Cell.dt 3⟩] :=
  (c5_raw_join [⟨"B", Cell.blank⟩] [⟨"B", Cell.dt 3⟩] ⟨"B", Cell.blank⟩ ⟨"B", Cell.dt 3⟩).mpr
    ⟨by decide, by decide, rfl⟩

/-- Counterexample to claim C6: the planned table
[Kickstart time, Start Date, End Planned] has a column matching the
direction token and the generic date qualifier in the same name
(Start Date, which the claim procedure selects), yet the code resolves
start_planned to the direction-only match Kickstart time, because the
source tries the bare direction token before the date qualifier. -/
theorem c6_counterexample :
    inferDateCols ["Kickstart time", "Start Date", "End Planned"] ["Task", "End Actual"] =
      ⟨"Kickstart time", "End Planned", "", "End Actual"⟩ ∧
    specDateSlot ["Kickstart time", "Start Date", "End Planned"] "start" "planned" =
      "Start Date" ∧
    ("Kickstart time" : String) ≠ "Start Date" :=
  ⟨by decide, by decide, by decide⟩

theorem inferDateCols_collapse (p a : List String) :
    inferDateCols p a =
      ⟨orS (find_column p ["start", "planned"]) (find_column p ["start"]),
       orS (find_column p ["end", "planned"]) (find_column p ["end"]),
       orS (find_column a ["start", "actual"]) (find_column a ["start"]),
       orS (find_column a ["end", "actual"]) (find_column a ["end"])⟩ := by
  unfold inferDateCols
  dsimp only
  split
  · refine DateCols.mk.injEq _ _ _ _ _ _ _ _ ▸ ?_
    refine ⟨?_, ?_, ?_, ?_⟩ <;>
      exact orS_collapse (find_column_sub_empty (by decide))
  · rfl

/-- Claim C6 as amended: for each of the four slots independently, the
code first matches direction token plus side qualifier (planned/actual),
then relaxes at once to a direction-token-only match; the generic
`date` qualifier pass (attempted only when the end slots are not both
resolved) can never change any slot, because any column containing
direction plus `date` also matches the earlier direction-only search.
Each slot may end up empty. -/
theorem c6_date_slots :
    ∀ (p a : List String),
      inferDateCols p a =
        ⟨orS (find_column p ["start", "planned"]) (find_column p ["start"]),
         orS (find_column p ["end", "planned"]) (find_column p ["end"]),
         orS (find_column a ["start", "actual"]) (find_column a ["start"]),
         orS (find_column a ["end", "actual"]) (find_column a ["end"])⟩ :=
  fun p a => inferDateCols_collapse p a

theorem orS_find_mem {cols : List String} {k1 k2 : List String}
    (h : orS (find_column cols k1) (find_column cols k2) ≠ "") :
    orS (find_column cols k1) (find_column cols k2) ∈ cols := by
  unfold orS at *
  by_cases h1 : find_column cols k1 = ""
  · rw [if_pos h1] at h ⊢
    rcases find_column_cases cols k2 with h2 | h2
    · exact absurd h2 h
    · exact h2
  · rw [if_neg h1] at h ⊢
    rcases find_column_cases cols k1 with h2 | h2
    · exact absurd h2 h1
    · exact h2

theorem orS_find_mem_two {p a : List String} {k1 k2 : List String}
    (h : orS (find_column p k1) (find_column a k2) ≠ "") :
    orS (find_column p k1) (find_column a k2) ∈ p ∨
      orS (find_column p k1) (find_column a k2) ∈ a := by
  unfold orS at *
  by_cases h1 : find_column p k1 = ""
  · rw [if_pos h1] at h ⊢
    rcases find_column_cases a k2 with h2 | h2
    · exact absurd h2 h
    · exact Or.inr h2
  · rw [if_neg h1] at h ⊢
    rcases find_column_cases p k1 with h2 | h2
    · exact absurd h2 h1
    · exact Or.inl h2

theorem find_column_single_sub {cols : List String} {kw : String}
    (h : find_column cols [kw] ≠ "") :
    containsL (strLower kw) (strLower (find_column cols [kw])) = true := by
  unfold find_column at *
  cases hf : (lowerCols cols).find? (fun kv => [kw].all fun k => containsL (strLower k) kv.1) with
  | none =>
    rw [hf] at h
    simp at h
  | some kv =>
    dsimp only at h ⊢
    have hp := List.find?_some hf
    simp only [List.all_cons, List.all_nil, Bool.and_true] at hp
    have hk := (lowerCols_entry (List.mem_of_find?_eq_some hf)).1
    rw [← hk]
    exact hp

theorem inferPhaseCol_mem {p a : List String} {c : String}
    (h : inferPhaseCol p a = some c) : c ∈ p ∨ c ∈ a := by
  unfold inferPhaseCol at h
  cases h1 : phaseCandidates.find? (fun c => p.contains c || a.contains c) with
  | some c0 =>
    rw [h1] at h
    rw [Option.some_inj] at h
    subst h
    have h2 := List.find?_some h1
    rw [Bool.or_eq_true] at h2
    rcases h2 with h2 | h2
    · exact Or.inl (by simpa using h2)
    · exact Or.inr (by simpa using h2)
  | none =>
    rw [h1] at h
    cases h2 : p.find? (fun c => hasSubL c "phase" || hasSubL c "stage") with
    | some c0 =>
      rw [h2] at h
      rw [Option.some_inj] at h
      subst h
      exact Or.inl (List.mem_of_find?_eq_some h2)
    | none =>
      rw [h2] at h
      exact Or.inr (List.mem_of_find?_eq_some h)

theorem inferTaskCol_mem (p a : List String) {t : String} {ws : List String}
    (h : inferTaskCol p a = .ok (t, ws)) (hne : t ≠ "") : t ∈ p ∨ t ∈ a := by
  unfold inferTaskCol at h
  cases h1 : taskCandidates.find? (fun c => p.contains c && a.contains c) with
  | some c =>
    rw [h1] at h
    dsimp only at h
    rw [Except.ok.injEq, Prod.mk.injEq] at h
    obtain ⟨hc, -⟩ := h
    subst hc
    have h2 := List.find?_some h1
    rw [Bool.and_eq_true] at h2
    exact Or.inl (by simpa using h2.1)
  | none =>
    rw [h1] at h
    dsimp only at h
    rw [Except.ok.injEq, Prod.mk.injEq] at h
    obtain ⟨hc, -⟩ := h
    by_cases hg : (orS (find_column p ["task"]) (find_column a ["task"]) != "" &&
        !(p.contains (orS (find_column p ["task"]) (find_column a ["task"])))) = true
    · rw [if_pos hg] at hc
      cases hf : p.find? (fun c => hasSubL c "task") with
      | some c =>
        rw [hf] at hc
        subst hc
        exact Or.inl (List.mem_of_find?_eq_some hf)
      | none =>
        rw [hf] at hc
        subst hc
        exact orS_find_mem_two hne
    · rw [if_neg hg] at hc
      subst hc
      exact orS_find_mem_two hne

/-- Counterexample to claim C8: with planned columns [Foo, End Planned]
and actual columns [My Task, End Actual], inference succeeds and maps
the task to My Task, a column that does not exist in the planned table
it is joined on. -/
theorem c8_counterexample :
    infer_columns ["Foo", "End Planned"] ["My Task", "End Actual"] =
      .ok (⟨"My Task", none, "", "End Planned", "", "End Actual"⟩, []) ∧
    ("My Task" : String) ∉ (["Foo", "End Planned"] : List String) :=
  ⟨by rfl, by decide⟩

/-- Claim C8 as amended: every populated date slot of an inferred
mapping names a column of the table it is read from, and a populated
phase or task field names a column of at least one of the two tables —
but the task column is not guaranteed to exist in both tables. -/
theorem c8_mapping_exists :
    ∀ (p a : List String) (m : ColumnMapping) (w : List String),
      infer_columns p a = .ok (m, w) →
        (m.start_planned ≠ "" → m.start_planned ∈ p) ∧
        (m.end_planned ≠ "" → m.end_planned ∈ p) ∧
        (m.start_actual ≠ "" → m.start_actual ∈ a) ∧
        (m.end_actual ≠ "" → m.end_actual ∈ a) ∧
        (∀ c, m.phase = some c → c ∈ p ∨ c ∈ a) ∧
        (m.task ≠ "" → m.task ∈ p ∨ m.task ∈ a) := by
  intro p a m w h
  unfold infer_columns at h
  cases ht : inferTaskCol p a with
  | error e =>
    rw [ht] at h
    cases h
  | ok tw =>
    rw [ht] at h
    obtain ⟨task, w1⟩ := tw
    dsimp only at h
    rw [Except.ok.injEq, Prod.mk.injEq] at h
    obtain ⟨hm, hw⟩ := h
    subst hm
    refine ⟨?_, ?_, ?_, ?_, ?_, ?_⟩
    · intro hne
      dsimp only at hne ⊢
      rw [inferDateCols_collapse p a] at hne ⊢
      exact orS_find_mem hne
    · intro hne
      dsimp only at hne ⊢
      rw [inferDateCols_collapse p a] at hne ⊢
      exact orS_find_mem hne
    · intro hne
      dsimp only at hne ⊢
      rw [inferDateCols_collapse p a] at hne ⊢
      exact orS_find_mem hne
    · intro hne
      dsimp only at hne ⊢
      rw [inferDateCols_collapse p a] at hne ⊢
      exact orS_find_mem hne
    · intro c hc
      dsimp only at hc
      exact inferPhaseCol_mem hc
    · intro hne
      dsimp only at hne ⊢
      exact inferTaskCol_mem p a ht hne

/-- Witness for the amended C8: the task column inferred from
([Task, End], [Task]) names a column of one of the tables. -/
theorem c8_mapping_exists_witness :
    ("Task" : String) ∈ (["Task", "End"] : List String) ∨
      ("Task" : String) ∈ (["Task"] : List String) :=
  (c8_mapping_exists ["Task", "End"] ["Task"] ⟨"Task", none, "", "End", "", ""⟩
    ["Could not auto-detect End Actual column in Actual file."]
    (by rfl)).2.2.2.2.2 (by decide)

/-- Counterexample to claim C4: the planned table [tasj, End Planned]
and actual table [tasjk, End Actual] have no preference-list or
task-substring column; the fuzzy step the claim describes (floor 0.6
under normalized edit distance) would accept tasj and tasjk as matches
for the literal string task, and failing that the claim demands a
SchemaError — yet the code neither fuzzy-matches nor fails: it returns
a mapping whose task column is the empty string, without any warning. -/
theorem c4_counterexample :
    inferTaskCol ["tasj", "End Planned"] ["tasjk", "End Actual"] = .ok ("", []) ∧
    fuzzyFloorOK "task" "tasj" = true ∧
    fuzzyFloorOK "task" "tasjk" = true ∧
    infer_columns ["tasj", "End Planned"] ["tasjk", "End Actual"] =
      .ok (⟨"", none, "", "End Planned", "", "End Actual"⟩, []) :=
  ⟨by rfl, by decide, by decide, by rfl⟩

/-- Claim C4 as amended: task-column resolution is (1) first exact
case-sensitive match on the preference list Task, task, TASK, Activity,
activity, Name, name present in both tables; (2) otherwise the first
column of the planned table containing task case-insensitively; (3)
otherwise the first such column of the actual table (used for both
sides); there is no fuzzy-matching step, and because the source compares
the already-string-valued variable against None, the common-column
fallback and the failure branch are unreachable: inference always
returns a task column (possibly the empty string) and no warning. -/
theorem c4_task_resolution :
    ∀ (p a : List String),
      (∀ c, taskCandidates.find? (fun c2 => p.contains c2 && a.contains c2) = some c →
        inferTaskCol p a = .ok (c, [])) ∧
      (taskCandidates.find? (fun c2 => p.contains c2 && a.contains c2) = none →
        find_column p ["task"] ≠ "" →
        inferTaskCol p a = .ok (find_column p ["task"], [])) ∧
      (taskCandidates.find? (fun c2 => p.contains c2 && a.contains c2) = none →
        find_column p ["task"] = "" →
        inferTaskCol p a = .ok (find_column a ["task"], [])) ∧
      (∃ t, inferTaskCol p a = .ok (t, [])) := by
  intro p a
  refine ⟨?_, ?_, ?_, ?_⟩
  · intro c hc
    unfold inferTaskCol
    rw [hc]
  · intro h1 h2
    unfold inferTaskCol
    rw [h1]
    dsimp only
    have ht0 : orS (find_column p ["task"]) (find_column a ["task"]) =
        find_column p ["task"] := by
      unfold orS
      rw [if_neg h2]
    rw [ht0]
    have hmem : p.contains (find_column p ["task"]) = true := by
      rcases find_column_cases p ["task"] with hx | hx
      · exact absurd hx h2
      · simpa using hx
    rw [hmem]
    simp
  · intro h1 h2
    unfold inferTaskCol
    rw [h1]
    dsimp only
    have ht0 : orS (find_column p ["task"]) (find_column a ["task"]) =
        find_column a ["task"] := by
      unfold orS
      rw [if_pos h2]
    rw [ht0]
    by_cases hfa : find_column a ["task"] = ""
    · rw [hfa]
      simp
    · have hnc : p.contains (find_column a ["task"]) = false := by
        by_contra hcon
        rw [Bool.not_eq_false] at hcon
        have hmem : find_column a ["task"] ∈ p := by simpa using hcon
        have hsub := find_column_single_sub hfa
        have hall := find_column_empty_all (by decide) h2 _ hmem
        rw [hall] at hsub
        exact Bool.noConfusion hsub
      have hg : (find_column a ["task"] != "" &&
          !(p.contains (find_column a ["task"]))) = true := by
        rw [hnc]
        simp [hfa]
      rw [if_pos hg]
      have hfind : p.find? (fun c => hasSubL c "task") = none := by
        rw [List.find?_eq_none]
        intro c hc
        have h3 := find_column_empty_all (by decide) h2 c hc
        simp [hasSubL, h3]
      rw [hfind]
  · unfold inferTaskCol
    cases h1 : taskCandidates.find? (fun c2 => p.contains c2 && a.contains c2) with
    | some c =>
      exact ⟨c, rfl⟩
    | none =>
      exact ⟨_, rfl⟩

/-- Witness for the amended C4: the substring branch applied to tables
with no task-like planned column, and the preference-list branch at a
table pair sharing Task. -/
theorem c4_task_resolution_witness :
    inferTaskCol ["Alpha"] ["Beta"] = .ok (find_column ["Beta"] ["task"], []) ∧
    inferTaskCol ["Task", "X"] ["Task"] = .ok ("Task", []) :=
  ⟨(c4_task_resolution ["Alpha"] ["Beta"]).2.2.1 (by rfl) (by rfl),
   (c4_task_resolution ["Task", "X"] ["Task"]).1 "Task" (by rfl)⟩

theorem countKeyT_block (as : List TRow) (pr : TRow) (k : String) :
    countKeyT
      (if (as.filter fun ar => ar.task == pr.task).isEmpty then [(some pr, none)]
       else (as.filter fun ar => ar.task == pr.task).map fun ar => (some pr, some ar)) k =
      if pr.task == k then
        (if (as.countP fun r => r.task == k) = 0 then 1 else as.countP fun r => r.task == k)
      else 0 := by
  by_cases hpk : (pr.task == k) = true
  · have hkeq : pr.task = k := by simpa using hpk
    have hfeq : (as.filter fun ar => ar.task == pr.task) =
        as.filter fun r => r.task == k := by rw [hkeq]
    have hca : (as.filter fun ar => ar.task == pr.task).length =
        as.countP fun r => r.task == k := by
      rw [hfeq, List.countP_eq_length_filter]
    by_cases hemp : (as.filter fun ar => ar.task == pr.task).isEmpty = true
    · have h0 : (as.countP fun r => r.task == k) = 0 := by
        rw [← hca, List.isEmpty_iff] at *
        rw [hemp]
        rfl
      rw [if_pos hemp, if_pos hpk, if_pos h0]
      simp [countKeyT, mKeyT, hpk]
    · have h0 : (as.countP fun r => r.task == k) ≠ 0 := by
        rw [← hca]
        intro hc
        rw [List.isEmpty_iff] at hemp
        exact hemp (List.eq_nil_of_length_eq_zero hc)
      rw [if_neg hemp, if_pos hpk, if_neg h0]
      unfold countKeyT
      rw [List.countP_map]
      have : ((fun r => mKeyT r == k) ∘ fun ar => (some pr, some ar)) =
          fun _ => (pr.task == k) := rfl
      rw [this, hpk]
      simp [← hca, List.countP_eq_length_filter]
  · rw [if_neg hpk]
    have hf : (pr.task == k) = false := Bool.eq_false_iff.mpr fun hcon => hpk hcon
    by_cases hemp : (as.filter fun ar => ar.task == pr.task).isEmpty = true
    · rw [if_pos hemp]
      simp [countKeyT, mKeyT, hf]
    · rw [if_neg hemp]
      unfold countKeyT
      rw [List.countP_map]
      have h2 : ((fun r => mKeyT r == k) ∘ fun ar => (some pr, some ar)) =
          fun _ => (pr.task == k) := rfl
      rw [h2, hf]
      simp

theorem countKeyT_leftPart (ps as : List TRow) (k : String) :
    countKeyT
      ((ps.map fun pr =>
        let ms := as.filter fun ar => ar.task == pr.task
        if ms.isEmpty then [(some pr, none)] else ms.map fun ar => (some pr, some ar)).flatten) k =
      (ps.countP fun r => r.task == k) *
        (if (as.countP fun r => r.task == k) = 0 then 1 else as.countP fun r => r.task == k) := by
  induction ps with
  | nil => simp [countKeyT]
  | cons pr t ih =>
    simp only [List.map_cons, List.flatten_cons]
    unfold countKeyT at *
    rw [List.countP_append]
    have hb := countKeyT_block as pr k
    unfold countKeyT at hb
    rw [hb, ih, List.countP_cons]
    set C : Nat :=
      if (as.countP fun r => r.task == k) = 0 then 1 else as.countP fun r => r.task == k
      with hC
    by_cases hpk : (pr.task == k) = true
    · rw [if_pos hpk, if_pos hpk]
      ring
    · rw [if_neg hpk, if_neg hpk]
      ring

theorem countKeyT_rightPart (ps as : List TRow) (k : String) :
    countKeyT
      ((as.filter fun ar => ps.all fun pr => !(pr.task == ar.task)).map
        fun ar => (none, some ar)) k =
      if (ps.countP fun r => r.task == k) = 0 then as.countP fun r => r.task == k else 0 := by
  induction as with
  | nil => simp [countKeyT]
  | cons ar t ih =>
    by_cases hstray : (ps.all fun pr => !(pr.task == ar.task)) = true
    · rw [List.filter_cons, if_pos hstray]
      by_cases hak : (ar.task == k) = true
      · have hkeq : ar.task = k := by simpa using hak
        have hcp : (ps.countP fun r => r.task == k) = 0 := by
          rw [List.countP_eq_zero]
          intro pr hpr
          have h2 := List.all_eq_true.mp hstray pr hpr
          rw [← hkeq]
          simpa using h2
        unfold countKeyT at *
        rw [List.map_cons, List.countP_cons, ih, List.countP_cons]
        simp [mKeyT, hak, hcp]
      · have hf : (ar.task == k) = false := Bool.eq_false_iff.mpr fun hcon => hak hcon
        unfold countKeyT at *
        rw [List.map_cons, List.countP_cons, ih, List.countP_cons]
        simp [mKeyT, hf]
    · rw [List.filter_cons, if_neg hstray]
      by_cases hak : (ar.task == k) = true
      · have hkeq : ar.task = k := by simpa using hak
        have hcp : (ps.countP fun r => r.task == k) ≠ 0 := by
          have h2 : ∃ pr ∈ ps, ¬((!(pr.task == ar.task)) = true) := by
            by_contra hcon
            push_neg at hcon
            exact hstray (List.all_eq_true.mpr fun x hx => hcon x hx)
          obtain ⟨pr, hpr, hpr2⟩ := h2
          have h3 : (pr.task == k) = true := by
            rw [← hkeq]
            simpa using hpr2
          have h4 : 0 < ps.countP fun r => r.task == k :=
            List.countP_pos_iff.mpr ⟨pr, hpr, h3⟩
          omega
        rw [ih, List.countP_cons]
        simp [hcp]
      · have hf : (ar.task == k) = false := Bool.eq_false_iff.mpr fun hcon => hak hcon
        rw [ih, List.countP_cons, hf]
        simp

theorem countKeyT_outerMerge (ps as : List TRow) (k : String) :
    countKeyT (outerMergeT ps as) k =
      if (ps.countP fun r => r.task == k) = 0 ∨ (as.countP fun r => r.task == k) = 0
      then (ps.countP fun r => r.task == k) + (as.countP fun r => r.task == k)
      else (ps.countP fun r => r.task == k) * (as.countP fun r => r.task == k) := by
  unfold outerMergeT
  unfold countKeyT
  rw [List.countP_append]
  have h1 := countKeyT_leftPart ps as k
  have h2 := countKeyT_rightPart ps as k
  unfold countKeyT at h1 h2
  rw [h1, h2]
  by_cases hcp : (ps.countP fun r => r.task == k) = 0 <;>
    by_cases hca : (as.countP fun r => r.task == k) = 0 <;>
    simp [hcp, hca]

theorem parseAt_planned_origin_absent {p a : List String} {key mc : String}
    (hk : mc ≠ key) (ho : plannedOrigin p a key mc = true) (ar : Option TRow) :
    parseAt p a key (none, ar) mc = none := by
  have hcond : ¬((mc == key) = true) := by simpa using hk
  have ho2 : (plFinder p a key mc).isSome = true := ho
  obtain ⟨c0, hc0⟩ := Option.isSome_iff_exists.mp ho2
  have hm : mergedCellAt p a key (none, ar) mc = none := by
    unfold mergedCellAt
    rw [if_neg hcond, hc0]
  unfold parseAt
  rw [hm]

theorem parseAt_actual_side_absent {p a : List String} {key mc : String}
    (hk : mc ≠ key) (ho : plannedOrigin p a key mc = false) (pr : Option TRow) :
    parseAt p a key (pr, none) mc = none := by
  have hcond : ¬((mc == key) = true) := by simpa using hk
  have hfin : plFinder p a key mc = none := by
    cases hP : plFinder p a key mc with
    | none => rfl
    | some c0 =>
      exfalso
      have h2 : plannedOrigin p a key mc = true := by
        unfold plannedOrigin
        rw [hP]
        rfl
      rw [h2] at ho
      exact Bool.noConfusion ho
  have hm : mergedCellAt p a key (pr, none) mc = none := by
    unfold mergedCellAt
    rw [if_neg hcond, hfin]
    cases hA : acFinder p a key mc <;> rfl
  unfold parseAt
  rw [hm]

theorem delayOfMergedRow_one_sided {p a : List String} {m : ColumnMapping}
    {epl eac : String} (hres : resolveEnds p a m = .ok (epl, eac))
    (hpl1 : epl ≠ m.task) (hpl2 : plannedOrigin p a m.task epl = true)
    (hac1 : eac ≠ m.task) (hac2 : plannedOrigin p a m.task eac = false)
    (r : Option TRow × Option TRow) (h : r.1 = none ∨ r.2 = none) :
    delayOfMergedRow p a m r = none := by
  unfold delayOfMergedRow
  rw [hres]
  dsimp only
  obtain ⟨x, y⟩ := r
  rcases h with h | h
  · dsimp only at h
    subst h
    have hp := parseAt_planned_origin_absent hpl1 hpl2 y
    rw [hp]
    cases hq : parseAt p a m.task (none, y) eac <;> rfl
  · dsimp only at h
    subst h
    have hq := parseAt_actual_side_absent hac1 hac2 x
    rw [hq]

theorem one_side_none_of_not_both {ρ σ : Type} {r : Option ρ × Option σ}
    (hq : (r.1.isSome && r.2.isSome) = false) : r.1 = none ∨ r.2 = none := by
  cases hx : r.1.isSome
  · exact Or.inl (Option.not_isSome_iff_eq_none.mp (by rw [hx]; exact Bool.false_ne_true))
  · cases hy : r.2.isSome
    · exact Or.inr (Option.not_isSome_iff_eq_none.mp (by rw [hy]; exact Bool.false_ne_true))
    · rw [hx, hy] at hq
      exact absurd hq (by decide)

theorem filterMap_eq_of_none_excluded {ρ : Type} (f : ρ → Option Int) (q : ρ → Bool)
    (l : List ρ) (h : ∀ r ∈ l, q r = false → f r = none) :
    (l.map f).filterMap id = ((l.filter q).map f).filterMap id := by
  induction l with
  | nil => rfl
  | cons r t ih =>
    have ih2 := ih fun x hx hqx => h x (List.mem_cons_of_mem _ hx) hqx
    by_cases hb : q r = true
    · rw [List.filter_cons, if_pos hb]
      rw [List.map_cons, List.map_cons, List.filterMap_cons, List.filterMap_cons]
      cases hd : f r <;> simp [ih2]
    · have hqr : q r = false := Bool.eq_false_iff.mpr hb
      rw [List.filter_cons, if_neg hb, List.map_cons, List.filterMap_cons,
        h r (List.mem_cons_self _ _) hqr]
      exact ih2

/-- Counterexample to claim C3: with planned columns [Task, Finish] and
actual columns [Task, End Planned, End Actual], the planned table has
no end-named column, so the candidate search over the merged frame
(line 182) resolves end_pl to End Planned — a column of the ACTUAL
table.  A task present only in the actual table then carries both end
dates, gets the non-null delay 5, and is counted by generate_insights
(here it is the only counted row: total 5, average 5, one task behind,
risk MEDIUM) — contradicting the claimed null delay and exclusion from
all aggregates for one-sided tasks. -/
theorem c3_counterexample :
    infer_columns ["Task", "Finish"] ["Task", "End Planned", "End Actual"] =
      .ok (⟨"Task", none, "", "", "", "End Actual"⟩,
           ["Could not auto-detect End Planned column in Planned file."]) ∧
    resolveEnds ["Task", "Finish"] ["Task", "End Planned", "End Actual"]
      ⟨"Task", none, "", "", "", "End Actual"⟩ = .ok ("End Planned", "End Actual") ∧
    (["Task", "Finish"].contains "End Planned") = false ∧
    outerMergeT [c3PlannedRow] [c3ActualRow] =
      [(some c3PlannedRow, none), (none, some c3ActualRow)] ∧
    delayOfMergedRow ["Task", "Finish"] ["Task", "End Planned", "End Actual"]
      ⟨"Task", none, "", "", "", "End Actual"⟩ (none, some c3ActualRow) = some 5 ∧
    generate_insights ((outerMergeT [c3PlannedRow] [c3ActualRow]).map
      (delayOfMergedRow ["Task", "Finish"] ["Task", "End Planned", "End Actual"]
        ⟨"Task", none, "", "", "", "End Actual"⟩)) =
      some ⟨5, 5, 1, 1, 0, Risk.MEDIUM⟩ :=
  ⟨by rfl, by rfl, by decide, by decide, by decide, by decide⟩

/-- Claim C3 as amended: reconciliation is an outer join — for every
task identity the number of merged rows carrying it is the product of
its multiplicities when it occurs on both sides and the plain sum
otherwise, so a one-sided task still appears with the other side null.
But null delay and exclusion from the aggregates hold for one-sided
rows only in the side-pure configuration, i.e. when the resolved
planned-end name originates from the planned table and the resolved
actual-end name does not (both differing from the join key): then every
one-sided row has null delay_days and dropping the one-sided rows
leaves the insight summary unchanged.  When the planned-end resolves to
an actual-table column this fails (see the counterexample). -/
theorem c3_outer_join :
    (∀ (ps as : List TRow) (k : String),
      countKeyT (outerMergeT ps as) k =
        if (ps.countP fun r => r.task == k) = 0 ∨ (as.countP fun r => r.task == k) = 0
        then (ps.countP fun r => r.task == k) + (as.countP fun r => r.task == k)
        else (ps.countP fun r => r.task == k) * (as.countP fun r => r.task == k)) ∧
    (∀ (p a : List String) (m : ColumnMapping) (epl eac : String),
      resolveEnds p a m = .ok (epl, eac) →
      epl ≠ m.task → plannedOrigin p a m.task epl = true →
      eac ≠ m.task → plannedOrigin p a m.task eac = false →
      ∀ (ps as : List TRow),
        (∀ r ∈ outerMergeT ps as, r.1 = none ∨ r.2 = none →
          delayOfMergedRow p a m r = none) ∧
        generate_insights ((outerMergeT ps as).map (delayOfMergedRow p a m)) =
          generate_insights (((outerMergeT ps as).filter fun r =>
            r.1.isSome && r.2.isSome).map (delayOfMergedRow p a m))) := by
  constructor
  · intro ps as k
    exact countKeyT_outerMerge ps as k
  · intro p a m epl eac hres h1 h2 h3 h4 ps as
    refine ⟨fun r _ h => delayOfMergedRow_one_sided hres h1 h2 h3 h4 r h, ?_⟩
    unfold generate_insights
    rw [filterMap_eq_of_none_excluded (delayOfMergedRow p a m)
      (fun r => r.1.isSome && r.2.isSome) (outerMergeT ps as)
      (fun r _ hq => delayOfMergedRow_one_sided hres h1 h2 h3 h4 r
        (one_side_none_of_not_both hq))]

/-- Witness for the amended C3: in the side-pure configuration
(planned [Task, End Planned], actual [Task, End Actual]) a planned-only
row has null delay. -/
theorem c3_outer_join_witness :
    delayOfMergedRow ["Task", "End Planned"] ["Task", "End Actual"]
      ⟨"Task", none, "", "End Planned", "", "End Actual"⟩
      (some ⟨"p1", [("End Planned", Cell.txt "2024-01-10")]⟩, none) = none :=
  (c3_outer_join.2 ["Task", "End Planned"] ["Task", "End Actual"]
      ⟨"Task", none, "", "End Planned", "", "End Actual"⟩ "End Planned" "End Actual"
      (by rfl) (by decide) (by decide) (by decide) (by decide)
      [⟨"p1", [("End Planned", Cell.txt "2024-01-10")]⟩] []).1
    (some ⟨"p1", [("End Planned", Cell.txt "2024-01-10")]⟩, none) (by decide) (Or.inr rfl)

/-! ## Helpers for the end-column resolution claim -/

theorem containsL_nil_needle (t : List Char) : containsL [] t = true := by
  cases t <;> simp [containsL, startsWithL]

theorem startsWithL_extend {n s : List Char} (t : List Char)
    (h : startsWithL n s = true) : startsWithL n (s ++ t) = true := by
  induction n generalizing s with
  | nil => rfl
  | cons x xs ih =>
    cases s with
    | nil => simp [startsWithL] at h
    | cons y ys =>
      simp only [startsWithL, List.cons_append] at h ⊢
      rw [Bool.and_eq_true] at h ⊢
      exact ⟨h.1, ih h.2⟩

theorem containsL_append_left {n h2 : List Char} (t : List Char)
    (h : containsL n h2 = true) : containsL n (h2 ++ t) = true := by
  induction h2 with
  | nil =>
    have hn := containsL_nil h
    subst hn
    exact containsL_nil_needle t
  | cons c cs ih =>
    simp only [containsL, List.cons_append] at h ⊢
    rw [Bool.or_eq_true] at h ⊢
    rcases h with h | h
    · exact Or.inl (startsWithL_extend t h)
    · exact Or.inr (ih h)

theorem containsL_append_right {n t : List Char} (h2 : List Char)
    (h : containsL n t = true) : containsL n (h2 ++ t) = true := by
  induction h2 with
  | nil => exact h
  | cons c cs ih =>
    simp only [List.cons_append, containsL]
    rw [Bool.or_eq_true]
    exact Or.inr ih

theorem strLower_append (s t : String) : strLower (s ++ t) = strLower s ++ strLower t := by
  show lowerL (s ++ t).data = lowerL s.data ++ lowerL t.data
  rw [String.data_append]
  exact List.map_append _ _ _

theorem hasSubL_append_left {c kw : String} (s : String)
    (h : hasSubL c kw = true) : hasSubL (c ++ s) kw = true := by
  unfold hasSubL at *
  rw [strLower_append]
  exact containsL_append_left _ h

theorem hasSubL_of_suffix {c s kw : String}
    (h : containsL (strLower kw) (strLower s) = true) : hasSubL (c ++ s) kw = true := by
  unfold hasSubL
  rw [strLower_append]
  exact containsL_append_right _ h

theorem append_ne_empty {s t : String} (h : t.data ≠ []) : s ++ t ≠ "" := by
  intro hcon
  apply h
  have h2 : (s ++ t).data = ("" : String).data := by rw [hcon]
  rw [String.data_append] at h2
  exact (List.append_eq_nil.mp h2).2

theorem headS_mem {l : List String} (h : headS l ≠ "") : headS l ∈ l := by
  cases l with
  | nil => exact absurd rfl h
  | cons c cs => exact List.mem_cons_self _ _

theorem mem_mergedCols_of_planned {p : List String} (a : List String) (key : String)
    {c : String} (hc : c ∈ p) :
    (if c != key && a.contains c then c ++ "_PL" else c) ∈ mergedCols p a key := by
  unfold mergedCols
  exact List.mem_append_left _ (List.mem_map_of_mem _ hc)

theorem mem_mergedCols_of_actual (p : List String) {a : List String} {key c : String}
    (hc : c ∈ a) (hck : c ≠ key) :
    (if p.contains c then c ++ "_AC" else c) ∈ mergedCols p a key := by
  unfold mergedCols
  apply List.mem_append_right
  apply List.mem_map_of_mem
  rw [List.mem_filter]
  exact ⟨hc, by simp [hck]⟩

theorem key_mem_mergedCols {p a : List String} {key : String} (hk : key ∈ p) :
    key ∈ mergedCols p a key := by
  have h := mem_mergedCols_of_planned a key hk
  simpa using h

theorem planned_mem_merged_or (a : List String) (key : String) {p : List String}
    {c : String} (hc : c ∈ p) :
    c ∈ mergedCols p a key ∨ (c ++ "_PL") ∈ mergedCols p a key := by
  have h := mem_mergedCols_of_planned a key hc
  by_cases hif : (c != key && a.contains c) = true
  · rw [if_pos hif] at h
    exact Or.inr h
  · rw [if_neg hif] at h
    exact Or.inl h

theorem actual_mem_merged_or (key : String) {p a : List String} {c : String}
    (hc : c ∈ a) (hkeyp : key ∈ p) :
    c ∈ mergedCols p a key ∨ (c ++ "_AC") ∈ mergedCols p a key := by
  by_cases hck : c = key
  · subst hck
    exact Or.inl (key_mem_mergedCols hkeyp)
  · have h := mem_mergedCols_of_actual p hc hck
    by_cases hif : (p.contains c) = true
    · rw [if_pos hif] at h
      exact Or.inr h
    · rw [if_neg hif] at h
      exact Or.inl h

theorem endStage2_spec {merged : List String} {sfx e1 : String}
    (h : e1 = "" ∨ e1 ∈ merged ∨ (e1 ++ sfx) ∈ merged) :
    endStage2 merged sfx e1 = "" ∨ endStage2 merged sfx e1 ∈ merged := by
  unfold endStage2
  by_cases hg : (e1 != "" && !(merged.contains e1)) = true
  · rw [if_pos hg]
    rcases h with h | h | h
    · exfalso
      rw [h] at hg
      simp at hg
    · exfalso
      rw [Bool.and_eq_true] at hg
      have hc : merged.contains e1 = true := by simpa using h
      rw [hc] at hg
      simp at hg
    · have hc : merged.contains (e1 ++ sfx) = true := by simpa using h
      rw [if_pos hc]
      exact Or.inr h
  · rw [if_neg hg]
    rcases h with h | h | h
    · exact Or.inl h
    · exact Or.inr h
    · by_cases h0 : e1 = ""
      · exact Or.inl h0
      · right
        have hb : (e1 != "") = true := by simpa using h0
        have hc : merged.contains e1 = true := by
          by_contra hcc
          apply hg
          rw [Bool.and_eq_true]
          refine ⟨hb, ?_⟩
          have hf2 : merged.contains e1 = false := Bool.eq_false_iff.mpr hcc
          rw [hf2]
          rfl
        simpa using hc

theorem endStage3_spec {merged : List String} {pred : String → Bool} {e2 : String}
    (h : e2 = "" ∨ e2 ∈ merged) :
    endStage3 merged pred e2 = "" ∨ endStage3 merged pred e2 ∈ merged := by
  unfold endStage3
  by_cases h20 : e2 = ""
  · rw [if_pos h20]
    cases hf : merged.find? pred with
    | none => exact Or.inl rfl
    | some c => exact Or.inr (List.mem_of_find?_eq_some hf)
  · rw [if_neg h20]
    rcases h with h | h
    · exact absurd h h20
    · exact Or.inr h

theorem endStage3_none {merged : List String} {pred : String → Bool} {e2 : String}
    (hpred : pred "" = false) (h : endStage3 merged pred e2 = "") :
    merged.find? pred = none := by
  unfold endStage3 at h
  by_cases h20 : e2 = ""
  · rw [if_pos h20] at h
    cases hf : merged.find? pred with
    | none => rfl
    | some c =>
      exfalso
      rw [hf] at h
      dsimp only at h
      have hp := List.find?_some hf
      rw [h] at hp
      rw [hpred] at hp
      exact Bool.noConfusion hp
  · rw [if_neg h20] at h
    exact absurd h h20

theorem endPlFinal_mem_merged (p a : List String) (m : ColumnMapping)
    (hp : m.end_planned = "" ∨ m.end_planned ∈ p)
    (hne : endPlFinal p a m ≠ "") :
    endPlFinal p a m ∈ mergedCols p a m.task := by
  unfold endPlFinal at hne ⊢
  dsimp only at hne ⊢
  set merged := mergedCols p a m.task with hmg
  set e1 := orS m.end_planned (headS (endPlCandidates merged)) with he1
  set e2 := endStage2 merged "_PL" e1 with he2
  set e3 := endStage3 merged (fun c => hasSubL c "end" && hasSubL c "_pl") e2 with he3
  have hs1 : e1 = "" ∨ e1 ∈ merged ∨ (e1 ++ "_PL") ∈ merged := by
    rw [he1]
    unfold orS
    by_cases hm1 : m.end_planned = ""
    · rw [if_pos hm1]
      by_cases hh : headS (endPlCandidates merged) = ""
      · exact Or.inl hh
      · refine Or.inr (Or.inl ?_)
        have hmem := headS_mem hh
        unfold endPlCandidates at hmem
        exact (List.mem_filter.mp hmem).1
    · rw [if_neg hm1]
      rcases hp with hp0 | hp0
      · exact absurd hp0 hm1
      · rcases planned_mem_merged_or a m.task hp0 with hmem | hmem
        · exact Or.inr (Or.inl hmem)
        · exact Or.inr (Or.inr hmem)
  have hs2 : e2 = "" ∨ e2 ∈ merged := he2 ▸ endStage2_spec hs1
  have hs3 : e3 = "" ∨ e3 ∈ merged := he3 ▸ endStage3_spec hs2
  by_cases h30 : e3 = ""
  · have h30b : endStage3 merged (fun c => hasSubL c "end" && hasSubL c "_pl") e2 = "" := by
      rw [← he3]
      exact h30
    have hfnone := endStage3_none (by decide) h30b
    unfold endStage4 at hne ⊢
    rw [if_pos h30] at hne ⊢
    cases hf : p.find? (fun c => hasSubL c "end") with
    | none =>
      rw [hf] at hne
      exact absurd rfl hne
    | some c =>
      have hcp : c ∈ p := List.mem_of_find?_eq_some hf
      have hsub := List.find?_some hf
      rcases planned_mem_merged_or a m.task hcp with hmem | hmem
      · exact hmem
      · exfalso
        have h4 := List.find?_eq_none.mp hfnone _ hmem
        apply h4
        rw [Bool.and_eq_true]
        exact ⟨hasSubL_append_left _ hsub, hasSubL_of_suffix (by decide)⟩
  · unfold endStage4 at hne ⊢
    rw [if_neg h30] at hne ⊢
    rcases hs3 with h | h
    · exact absurd h h30
    · exact h

theorem endAcFinal_mem_merged (p a : List String) (m : ColumnMapping)
    (ha : m.end_actual = "" ∨ m.end_actual ∈ a)
    (htp : m.task ∈ p)
    (hne : endAcFinal p a m ≠ "") :
    endAcFinal p a m ∈ mergedCols p a m.task := by
  unfold endAcFinal at hne ⊢
  dsimp only at hne ⊢
  set merged := mergedCols p a m.task with hmg
  set e1 := orS m.end_actual (headS (endAcCandidates merged)) with he1
  set e2 := endStage2 merged "_AC" e1 with he2
  set e3 := endStage3 merged
    (fun c => hasSubL c "end" && (hasSubL c "_ac" || hasSubL c "_actual")) e2 with he3
  have hs1 : e1 = "" ∨ e1 ∈ merged ∨ (e1 ++ "_AC") ∈ merged := by
    rw [he1]
    unfold orS
    by_cases hm1 : m.end_actual = ""
    · rw [if_pos hm1]
      by_cases hh : headS (endAcCandidates merged) = ""
      · exact Or.inl hh
      · refine Or.inr (Or.inl ?_)
        have hmem := headS_mem hh
        unfold endAcCandidates at hmem
        exact (List.mem_filter.mp hmem).1
    · rw [if_neg hm1]
      rcases ha with ha0 | ha0
      · exact absurd ha0 hm1
      · rcases actual_mem_merged_or m.task ha0 htp with hmem | hmem
        · exact Or.inr (Or.inl hmem)
        · exact Or.inr (Or.inr hmem)
  have hs2 : e2 = "" ∨ e2 ∈ merged := he2 ▸ endStage2_spec hs1
  have hs3 : e3 = "" ∨ e3 ∈ merged := he3 ▸ endStage3_spec hs2
  by_cases h30 : e3 = ""
  · have h30b : endStage3 merged
        (fun c => hasSubL c "end" && (hasSubL c "_ac" || hasSubL c "_actual")) e2 = "" := by
      rw [← he3]
      exact h30
    have hfnone := endStage3_none (by decide) h30b
    unfold endStage4 at hne ⊢
    rw [if_pos h30] at hne ⊢
    cases hf : a.find? (fun c => hasSubL c "end") with
    | none =>
      rw [hf] at hne
      exact absurd rfl hne
    | some c =>
      have hca : c ∈ a := List.mem_of_find?_eq_some hf
      have hsub := List.find?_some hf
      rcases actual_mem_merged_or m.task hca htp with hmem | hmem
      · exact hmem
      · exfalso
        have h4 := List.find?_eq_none.mp hfnone _ hmem
        apply h4
        rw [Bool.and_eq_true]
        refine ⟨hasSubL_append_left _ hsub, ?_⟩
        rw [Bool.or_eq_true]
        exact Or.inl (hasSubL_of_suffix (by decide))
  · unfold endStage4 at hne ⊢
    rw [if_neg h30] at hne ⊢
    rcases hs3 with h | h
    · exact absurd h h30
    · exact h

/-- Counterexample to claim C9: on planned [Task, End] and actual [Task]
inference resolves end_planned to End (non-empty) and the task column
exists in both tables, yet the reconciler still raises — the code
raises when either end column is unresolved, not only when both are. -/
theorem c9_counterexample :
    resolveEnds ["Task", "End"] ["Task"] ⟨"Task", none, "", "End", "", ""⟩ =
      .error "Unable to identify End Planned and End Actual columns automatically." ∧
    infer_columns ["Task", "End"] ["Task"] =
      .ok (⟨"Task", none, "", "End", "", ""⟩,
           ["Could not auto-detect End Actual column in Actual file."]) ∧
    (⟨"Task", none, "", "End", "", ""⟩ : ColumnMapping).end_planned ≠ "" ∧
    ("Task" : String) ∈ (["Task", "End"] : List String) ∧
    ("Task" : String) ∈ (["Task"] : List String) :=
  ⟨by rfl, by rfl, by decide, by decide, by decide⟩

/-- Claim C9 as amended: for a mapping whose populated end slots name
real columns of their tables, the reconciler fails exactly when the task
column is missing from one of the tables or when either (not both) of
the two end-column fallback chains comes up empty; moreover an empty
planned-end (resp. actual-end) chain implies that no planned (resp.
actual) column contains `end` at all.  In every other case it returns a
result. -/
theorem c9_error_conditions :
    ∀ (p a : List String) (m : ColumnMapping),
      (m.end_planned = "" ∨ m.end_planned ∈ p) →
      (m.end_actual = "" ∨ m.end_actual ∈ a) →
      ((isOkE (resolveEnds p a m) = true ↔
         (m.task ∈ p ∧ m.task ∈ a ∧ endPlFinal p a m ≠ "" ∧ endAcFinal p a m ≠ "")) ∧
       (endPlFinal p a m = "" → ∀ c ∈ p, hasSubL c "end" = false) ∧
       (endAcFinal p a m = "" → ∀ c ∈ a, hasSubL c "end" = false)) := by
  intro p a m hp ha
  refine ⟨⟨?_, ?_⟩, ?_, ?_⟩
  · intro hok
    unfold resolveEnds at hok
    dsimp only at hok
    split at hok
    · exact absurd hok (by simp [isOkE])
    · rename_i h1
      split at hok
      · exact absurd hok (by simp [isOkE])
      · rename_i h2
        split at hok
        · exact absurd hok (by simp [isOkE])
        · rename_i h3
          have h1b : (p.contains m.task && a.contains m.task) = true := by
            simpa using h1
          rw [Bool.and_eq_true] at h1b
          have h2b : endPlFinal p a m ≠ "" ∧ endAcFinal p a m ≠ "" := by
            simpa [not_or] using h2
          exact ⟨by simpa using h1b.1, by simpa using h1b.2, h2b.1, h2b.2⟩
  · rintro ⟨htp, hta, hne1, hne2⟩
    have h1 : (p.contains m.task && a.contains m.task) = true := by
      rw [Bool.and_eq_true]
      exact ⟨by simpa using htp, by simpa using hta⟩
    have hm1 := endPlFinal_mem_merged p a m hp hne1
    have hm2 := endAcFinal_mem_merged p a m ha htp hne2
    have h3 : (mergedCols p a m.task).contains (endPlFinal p a m) = true := by
      simpa using hm1
    have h4 : (mergedCols p a m.task).contains (endAcFinal p a m) = true := by
      simpa using hm2
    unfold resolveEnds
    dsimp only
    rw [h1]
    have h2 : (endPlFinal p a m == "" || endAcFinal p a m == "") = false := by
      rw [Bool.or_eq_false_iff]
      constructor
      · exact beq_eq_false_iff_ne.mpr hne1
      · exact beq_eq_false_iff_ne.mpr hne2
    rw [h2, h3, h4]
    rfl
  · intro h0
    unfold endPlFinal at h0
    dsimp only at h0
    unfold endStage4 at h0
    intro c hc
    by_cases h30 : endStage3 (mergedCols p a m.task)
        (fun c => hasSubL c "end" && hasSubL c "_pl")
        (endStage2 (mergedCols p a m.task) "_PL"
          (orS m.end_planned (headS (endPlCandidates (mergedCols p a m.task))))) = ""
    · rw [if_pos h30] at h0
      cases hf : p.find? (fun c => hasSubL c "end") with
      | none =>
        have := List.find?_eq_none.mp hf c hc
        exact Bool.eq_false_iff.mpr this
      | some c0 =>
        exfalso
        rw [hf] at h0
        dsimp only at h0
        have hp0 := List.find?_some hf
        rw [h0] at hp0
        exact absurd hp0 (by decide)
    · rw [if_neg h30] at h0
      exact absurd h0 h30
  · intro h0
    unfold endAcFinal at h0
    dsimp only at h0
    unfold endStage4 at h0
    intro c hc
    by_cases h30 : endStage3 (mergedCols p a m.task)
        (fun c => hasSubL c "end" && (hasSubL c "_ac" || hasSubL c "_actual"))
        (endStage2 (mergedCols p a m.task) "_AC"
          (orS m.end_actual (headS (endAcCandidates (mergedCols p a m.task))))) = ""
    · rw [if_pos h30] at h0
      cases hf : a.find? (fun c => hasSubL c "end") with
      | none =>
        have := List.find?_eq_none.mp hf c hc
        exact Bool.eq_false_iff.mpr this
      | some c0 =>
        exfalso
        rw [hf] at h0
        dsimp only at h0
        have hp0 := List.find?_some hf
        rw [h0] at hp0
        exact absurd hp0 (by decide)
    · rw [if_neg h30] at h0
      exact absurd h0 h30

/-- Witness for the amended C9: at planned [Task, End Planned] and
actual [Task, End Actual] with the inferred mapping, resolution
succeeds. -/
theorem c9_error_conditions_witness :
    isOkE (resolveEnds ["Task", "End Planned"] ["Task", "End Actual"]
      ⟨"Task", none, "", "End Planned", "", "End Actual"⟩) = true :=
  ((c9_error_conditions ["Task", "End Planned"] ["Task", "End Actual"]
      ⟨"Task", none, "", "End Planned", "", "End Actual"⟩
      (Or.inr (by decide)) (Or.inr (by decide))).1).mpr
    ⟨by decide, by decide, by decide, by decide⟩

end CTA
